import Mathlib

/-!
Verification development for the secure image-delivery pipeline
(QR-scanned connection descriptor, WebSocket channel manager, two-strategy
AES-CBC decryption engine, ZIP image extraction, and the orchestrating page).

Bytes are modelled as `List Nat` (each element a byte value).  The block
cipher and the key-stretching derivation come from the external crypto
library (crypto-js); they are modelled as an abstract `Cipher` bundle whose
Prop fields state the interface laws the library provides (a keyed
permutation on 16-byte blocks, and a deterministic 48-byte derivation).
Everything the repository's own code does with those primitives (IV and
salt extraction, CBC chaining, byte/word packing, PKCS#7 padding removal,
strategy ordering, ZIP filtering, the reconnect state machine, the
descriptor parser, the page-level orchestration) is translated directly
from the source.
-/

/-- Byte-wise XOR of two byte lists (truncating to the shorter one; all
callers below pass 16-byte lists on at least one side). -/
def xorB (a b : List Nat) : List Nat := List.zipWith (fun x y => x ^^^ y) a b

/-- Pad or truncate a byte list to exactly 16 bytes, zero-filling on the
right.  This models how the crypto library reads an IV: the first four
32-bit words of the given word array, missing words reading as zero. -/
def fit16 (l : List Nat) : List Nat := (l ++ List.replicate 16 0).take 16

/-- UTF-8 encoding of a single Unicode code point. -/
def charUtf8 (n : Nat) : List Nat :=
  if n < 128 then [n]
  else if n < 2048 then [192 + n / 64, 128 + n % 64]
  else if n < 65536 then [224 + n / 4096, 128 + n / 64 % 64, 128 + n % 64]
  else [240 + n / 262144, 128 + n / 4096 % 64, 128 + n / 64 % 64, 128 + n % 64]

/-- UTF-8 bytes of a string; models `CryptoJS.enc.Utf8.parse`. -/
def utf8Bytes (s : String) : List Nat := (s.toList.map (fun c => charUtf8 c.toNat)).flatten

/-- Split a byte list into consecutive 16-byte blocks (the last block may be
shorter).  Fuel-indexed so the definition is structural and reduces in the
kernel; `chunks16` instantiates the fuel with the list length. -/
def chunks16Go : Nat → List Nat → List (List Nat)
  | 0, _ => []
  | _, [] => []
  | fuel + 1, a :: t => ((a :: t).take 16) :: chunks16Go fuel ((a :: t).drop 16)

/-- Consecutive 16-byte blocks of a byte list. -/
def chunks16 (l : List Nat) : List (List Nat) := chunks16Go l.length l

/-- The abstract interface of the external crypto library: a keyed block
cipher that is a permutation on 16-byte blocks, and a key-stretching
derivation (`PBKDF2(passphrase, salt, keySize, iterations)` in the source,
invoked with keySize 12 words and 1000 iterations, hence 48 output bytes). -/
structure Cipher where
  encryptBlock : List Nat → List Nat → List Nat
  decryptBlock : List Nat → List Nat → List Nat
  kdf : String → List Nat → Nat → Nat → List Nat
  enc_len : ∀ k b, b.length = 16 → (encryptBlock k b).length = 16
  dec_enc : ∀ k b, b.length = 16 → decryptBlock k (encryptBlock k b) = b
  kdf_len : ∀ p s, (kdf p s 12 1000).length = 48

/-- CBC-mode encryption over a list of plaintext blocks: each block is
XORed with the previous ciphertext block (initially the IV) and then
enciphered. -/
def cbcEncBlocks (enc : List Nat → List Nat → List Nat) (key : List Nat) :
    List Nat → List (List Nat) → List (List Nat)
  | _, [] => []
  | prev, b :: bs =>
    let c := enc key (xorB prev b)
    c :: cbcEncBlocks enc key c bs

/-- CBC-mode decryption over a list of ciphertext blocks. -/
def cbcDecBlocks (dec : List Nat → List Nat → List Nat) (key : List Nat) :
    List Nat → List (List Nat) → List (List Nat)
  | _, [] => []
  | prev, c :: cs => xorB prev (dec key c) :: cbcDecBlocks dec key c cs

/-- Zero-extend a byte list to a whole number of 16-byte blocks.  Models the
library's flushing block processor, which rounds the buffered data up to a
whole block, absent words reading as zero. -/
def padTo16 (bs : List Nat) : List Nat :=
  bs ++ List.replicate ((16 - bs.length % 16) % 16) 0

/-- PKCS#7 padding: append n copies of n, where n = 16 - (len mod 16). -/
def pkcs7pad (bs : List Nat) : List Nat :=
  bs ++ List.replicate (16 - bs.length % 16) (16 - bs.length % 16)

/-- Padding removal as the crypto library performs it: read the last byte n
and drop the last n bytes; the only failure is n exceeding the length (the
resulting negative size throws, which the source catches and maps to null).
An empty input reads a padding count of zero and is returned unchanged. -/
def cryptoJsUnpad (bs : List Nat) : Option (List Nat) :=
  match bs.getLast? with
  | none => some []
  | some n => if bs.length < n then none else some (bs.take (bs.length - n))

/-- Raw CBC decryption of a byte string: block the (zero-extended)
ciphertext, chain-decrypt starting from the (zero-fitted) IV, and
reconcatenate.  The byte/word big-endian packing done by the source's
conversion loop is the identity at byte level. -/
def rawCbcDecrypt (dec : List Nat → List Nat → List Nat) (key iv ct : List Nat) : List Nat :=
  (cbcDecBlocks dec key (fit16 iv) (chunks16 (padTo16 ct))).flatten

namespace CryptoService

/-- `CryptoService.decryptAES` (src/src/services/crypto.ts lines 14-68):
key is the UTF-8 bytes of the key string; the IV is the given string's
UTF-8 bytes if provided, otherwise the first 16 bytes of the data with the
remainder as ciphertext; AES-CBC with PKCS#7 unpadding; any fault is
caught and returned as null (`none`). -/
def decryptAES (C : Cipher) (encryptedData : List Nat) (key : String) (iv : Option String) :
    Option (List Nat) :=
  let keyBytes := utf8Bytes key
  match iv with
  | some s => cryptoJsUnpad (rawCbcDecrypt C.decryptBlock keyBytes (utf8Bytes s) encryptedData)
  | none =>
      cryptoJsUnpad
        (rawCbcDecrypt C.decryptBlock keyBytes (encryptedData.take 16) (encryptedData.drop 16))

/-- `CryptoService.decryptAESWithSalt` (crypto.ts lines 73-118): salt is the
first 8 bytes; PBKDF2(passphrase, salt, keySize 12 words, 1000 iterations)
yields 48 bytes, split as a 32-byte key then a 16-byte IV; AES-CBC with
PKCS#7 unpadding over the remaining bytes. -/
def decryptAESWithSalt (C : Cipher) (encryptedData : List Nat) (passphrase : String) :
    Option (List Nat) :=
  let salt := encryptedData.take 8
  let encrypted := encryptedData.drop 8
  let keyIv := C.kdf passphrase salt 12 1000
  cryptoJsUnpad
    (rawCbcDecrypt C.decryptBlock (keyIv.take 32) ((keyIv.drop 32).take 16) encrypted)

end CryptoService

/-- Modelled from the spec: the sender-side direct-key convention, which the
repository only consumes (no encryptor exists in the source).  Key = UTF-8
bytes of the key material, a fresh 16-byte IV is transmitted first, and the
PKCS#7-padded plaintext is CBC-encrypted after it. -/
def encryptDirectKey (C : Cipher) (key : String) (iv pt : List Nat) : List Nat :=
  iv ++ (cbcEncBlocks C.encryptBlock (utf8Bytes key) (fit16 iv) (chunks16 (pkcs7pad pt))).flatten

/-- Modelled from the spec: the sender-side passphrase+salt convention.  The
8-byte salt is transmitted first; key and IV are the first 32 and next 16
bytes of the 48-byte stretch of (passphrase, salt); the PKCS#7-padded
plaintext is CBC-encrypted after the salt. -/
def encryptWithSalt (C : Cipher) (passphrase : String) (salt pt : List Nat) : List Nat :=
  let keyIv := C.kdf passphrase salt 12 1000
  salt ++
    (cbcEncBlocks C.encryptBlock (keyIv.take 32) (fit16 ((keyIv.drop 32).take 16))
      (chunks16 (pkcs7pad pt))).flatten

/-- A concrete instance of the cipher interface (the identity permutation
with an all-zero derivation), used to evaluate the translated code on
explicit inputs; the library's AES-256/PBKDF2 pair satisfies the same
interface laws. -/
def idCipher : Cipher where
  encryptBlock := fun _ b => b
  decryptBlock := fun _ b => b
  kdf := fun _ _ _ _ => List.replicate 48 0
  enc_len := fun _ _ h => h
  dec_enc := fun _ _ _ => rfl
  kdf_len := fun _ _ => rfl


section CbcLemmas

theorem xorB_cancel : ∀ (a b : List Nat), a.length = b.length → xorB a (xorB a b) = b
  | [], [], _ => rfl
  | x :: xs, y :: ys, h => by
    have hx : x ^^^ (x ^^^ y) = y := by
      rw [← Nat.xor_assoc, Nat.xor_self, Nat.zero_xor]
    have ht : xorB xs (xorB xs ys) = ys := xorB_cancel xs ys (by simpa using h)
    simp only [xorB, List.zipWith_cons_cons] at ht ⊢
    rw [hx, ht]

theorem xorB_length (a b : List Nat) : (xorB a b).length = min a.length b.length := by
  simp [xorB]

theorem fit16_length (l : List Nat) : (fit16 l).length = 16 := by
  simp [fit16]

theorem fit16_of_length (l : List Nat) (h : l.length = 16) : fit16 l = l := by
  rw [fit16, List.take_left' h]

theorem chunks16Go_congr (f1 : Nat) :
    ∀ (f2 : Nat) (l : List Nat), l.length ≤ f1 → l.length ≤ f2 →
      chunks16Go f1 l = chunks16Go f2 l := by
  induction f1 with
  | zero =>
    intro f2 l h1 _
    have : l = [] := List.eq_nil_of_length_eq_zero (Nat.le_zero.mp h1)
    subst this
    cases f2 <;> rfl
  | succ f1 ih =>
    intro f2 l h1 h2
    cases l with
    | nil => cases f2 <;> rfl
    | cons a t =>
      cases f2 with
      | zero => simp at h2
      | succ f2 =>
        have hl : (a :: t).length = t.length + 1 := by simp
        have hdl : ((a :: t).drop 16).length = t.length + 1 - 16 := by simp
        simp only [chunks16Go]
        congr 1
        exact ih f2 _ (by omega) (by omega)

theorem chunks16_eq_cons (l : List Nat) (h : l ≠ []) :
    chunks16 l = l.take 16 :: chunks16 (l.drop 16) := by
  cases l with
  | nil => exact absurd rfl h
  | cons a t =>
    have hdl : ((a :: t).drop 16).length = t.length + 1 - 16 := by simp
    show chunks16Go (a :: t).length (a :: t) = _
    have hl : (a :: t).length = t.length + 1 := by simp
    rw [hl]
    simp only [chunks16Go]
    congr 1
    exact chunks16Go_congr t.length _ _ (by omega) (by omega)

theorem chunks16Go_flatten (fuel : Nat) :
    ∀ (l : List Nat), l.length ≤ fuel → (chunks16Go fuel l).flatten = l := by
  induction fuel with
  | zero =>
    intro l h
    have : l = [] := List.eq_nil_of_length_eq_zero (Nat.le_zero.mp h)
    subst this; rfl
  | succ fuel ih =>
    intro l h
    cases l with
    | nil => rfl
    | cons a t =>
      have hl : (a :: t).length = t.length + 1 := by simp
      have hdl : ((a :: t).drop 16).length = t.length + 1 - 16 := by simp
      simp only [chunks16Go, List.flatten_cons]
      rw [ih _ (by omega), List.take_append_drop]

theorem chunks16_flatten (l : List Nat) : (chunks16 l).flatten = l :=
  chunks16Go_flatten l.length l le_rfl

theorem chunks16Go_all16 (fuel : Nat) :
    ∀ (l : List Nat), l.length ≤ fuel → l.length % 16 = 0 →
      ∀ c ∈ chunks16Go fuel l, c.length = 16 := by
  induction fuel with
  | zero =>
    intro l h _ c hc
    have : l = [] := List.eq_nil_of_length_eq_zero (Nat.le_zero.mp h)
    subst this
    simp [chunks16Go] at hc
  | succ fuel ih =>
    intro l h hmod c hc
    cases l with
    | nil => simp [chunks16Go] at hc
    | cons a t =>
      have hl : (a :: t).length = t.length + 1 := by simp
      have hdl : ((a :: t).drop 16).length = t.length + 1 - 16 := by simp
      simp only [chunks16Go, List.mem_cons] at hc
      rcases hc with hc | hc
      · subst hc
        simp only [List.length_take, hl]
        omega
      · exact ih _ (by omega) (by omega) c hc

theorem chunks16_all16 (l : List Nat) (hmod : l.length % 16 = 0) :
    ∀ c ∈ chunks16 l, c.length = 16 :=
  chunks16Go_all16 l.length l le_rfl hmod

theorem chunks16_flatten_blocks :
    ∀ (bs : List (List Nat)), (∀ b ∈ bs, b.length = 16) → chunks16 bs.flatten = bs := by
  intro bs
  induction bs with
  | nil => intro _; rfl
  | cons b bs ih =>
    intro h
    have hb : b.length = 16 := h b (by simp)
    have hbs : ∀ x ∈ bs, x.length = 16 := fun x hx => h x (by simp [hx])
    have hne : b ++ bs.flatten ≠ [] := by
      intro hcon
      have hlen := congrArg List.length hcon
      simp [hb] at hlen
    have h1 : (b ++ bs.flatten).take 16 = b := List.take_left' hb
    have h2 : (b ++ bs.flatten).drop 16 = bs.flatten := List.drop_left' hb
    rw [List.flatten_cons, chunks16_eq_cons _ hne, h1, h2, ih hbs]

theorem cbcEncBlocks_all16 (C : Cipher) (key : List Nat) :
    ∀ (bs : List (List Nat)) (prev : List Nat), prev.length = 16 →
      (∀ b ∈ bs, b.length = 16) →
      ∀ c ∈ cbcEncBlocks C.encryptBlock key prev bs, c.length = 16
  | [], _, _, _, _, hc => by simp [cbcEncBlocks] at hc
  | b :: bs, prev, hprev, hbs, c, hc => by
    have hb : b.length = 16 := hbs b (by simp)
    have hxor : (xorB prev b).length = 16 := by
      rw [xorB_length, hprev, hb]; simp
    have henc : (C.encryptBlock key (xorB prev b)).length = 16 := C.enc_len key _ hxor
    simp only [cbcEncBlocks, List.mem_cons] at hc
    rcases hc with hc | hc
    · subst hc; exact henc
    · exact cbcEncBlocks_all16 C key bs _ henc (fun x hx => hbs x (by simp [hx])) c hc

theorem cbc_roundtrip (C : Cipher) (key : List Nat) :
    ∀ (bs : List (List Nat)) (prev : List Nat), prev.length = 16 →
      (∀ b ∈ bs, b.length = 16) →
      cbcDecBlocks C.decryptBlock key prev (cbcEncBlocks C.encryptBlock key prev bs) = bs
  | [], _, _, _ => rfl
  | b :: bs, prev, hprev, hbs => by
    have hb : b.length = 16 := hbs b (by simp)
    have hxor : (xorB prev b).length = 16 := by
      rw [xorB_length, hprev, hb]; simp
    have henc : (C.encryptBlock key (xorB prev b)).length = 16 := C.enc_len key _ hxor
    simp only [cbcEncBlocks, cbcDecBlocks]
    rw [C.dec_enc key _ hxor, xorB_cancel prev b (by rw [hprev, hb])]
    congr 1
    exact cbc_roundtrip C key bs _ henc (fun x hx => hbs x (by simp [hx]))

theorem flatten_length_mod16 :
    ∀ (bs : List (List Nat)), (∀ b ∈ bs, b.length = 16) → bs.flatten.length % 16 = 0
  | [], _ => rfl
  | b :: bs, h => by
    have hb : b.length = 16 := h b (by simp)
    have ih := flatten_length_mod16 bs (fun x hx => h x (by simp [hx]))
    simp only [List.flatten_cons, List.length_append, hb]
    omega

theorem padTo16_of_mod (l : List Nat) (h : l.length % 16 = 0) : padTo16 l = l := by
  simp [padTo16, h]

theorem pkcs7pad_length_mod (pt : List Nat) : (pkcs7pad pt).length % 16 = 0 := by
  simp only [pkcs7pad, List.length_append, List.length_replicate]
  omega

theorem cryptoJsUnpad_pkcs7pad (pt : List Nat) : cryptoJsUnpad (pkcs7pad pt) = some pt := by
  set n := 16 - pt.length % 16 with hn
  have hn1 : 1 ≤ n := by
    have := Nat.mod_lt pt.length (show 0 < 16 by decide)
    omega
  obtain ⟨k, hk⟩ : ∃ k, n = k + 1 := ⟨n - 1, by omega⟩
  have hsplit : pkcs7pad pt = (pt ++ List.replicate k n) ++ [n] := by
    rw [pkcs7pad, ← hn, hk, List.replicate_succ', ← List.append_assoc]
  have hlast : (pkcs7pad pt).getLast? = some n := by
    rw [hsplit, List.getLast?_concat]
  have hlen : (pkcs7pad pt).length = pt.length + n := by
    simp [pkcs7pad, ← hn]
  simp only [cryptoJsUnpad, hlast]
  rw [if_neg (by omega)]
  congr 1
  rw [hlen, Nat.add_sub_cancel, pkcs7pad, ← hn]
  exact List.take_left pt _

/-- Round trip through raw CBC plus PKCS#7 for any cipher satisfying the
interface laws; the IV enters through `fit16` on both sides, so no length
assumption on it is needed. -/
theorem cbc_pad_roundtrip (C : Cipher) (keyB iv pt : List Nat) :
    cryptoJsUnpad
      (rawCbcDecrypt C.decryptBlock keyB iv
        ((cbcEncBlocks C.encryptBlock keyB (fit16 iv) (chunks16 (pkcs7pad pt))).flatten)) =
      some pt := by
  have hblocks : ∀ b ∈ chunks16 (pkcs7pad pt), b.length = 16 :=
    chunks16_all16 _ (pkcs7pad_length_mod pt)
  have henc : ∀ c ∈ cbcEncBlocks C.encryptBlock keyB (fit16 iv) (chunks16 (pkcs7pad pt)),
      c.length = 16 :=
    cbcEncBlocks_all16 C keyB _ _ (fit16_length iv) hblocks
  rw [rawCbcDecrypt, padTo16_of_mod _ (flatten_length_mod16 _ henc),
    chunks16_flatten_blocks _ henc,
    cbc_roundtrip C keyB _ _ (fit16_length iv) hblocks,
    chunks16_flatten, cryptoJsUnpad_pkcs7pad]

end CbcLemmas

/-- A ZIP archive entry as the archive library presents it: a path name, a
directory-marker flag, and the outcome of the entry's asynchronous
decompression read (`file.async('arraybuffer')`, crypto.ts line 154):
`some bytes` when the read succeeds, `none` when it throws (a corrupt or
unsupported deflate stream; the thrown message is only logged by the
source, so it is not modelled). -/
structure ZipEntry where
  name : String
  dir : Bool
  data : Option (List Nat)
deriving DecidableEq

/-- `DecryptionResult` (crypto.ts lines 4-8): success flag, optional map
from filename to a base64 data URL, optional error message. -/
structure DecryptionResult where
  success : Bool
  files : Option (List (String × String))
  error : Option String
deriving DecidableEq

namespace CryptoService

/-- The allow-listed image extensions (crypto.ts line 191). -/
def imageExtensions : List String := [".jpg", ".jpeg", ".png", ".gif", ".bmp", ".webp", ".svg"]

/-- Character-wise lowercasing, modelling `String.prototype.toLowerCase`
(which preserves positions for the filenames involved). -/
def lowerChars (s : String) : List Char := s.toList.map Char.toLower

/-- Index of the last '.' in a character list, modelling
`String.prototype.lastIndexOf`; `none` models the -1 result. -/
def lastDot (cs : List Char) : Option Nat :=
  ((cs.enum.filter (fun p => p.2 == '.')).map (fun p => p.1)).getLast?

/-- The extension as crypto.ts line 192 computes it:
`filename.toLowerCase().substring(filename.lastIndexOf('.'))`.  When there
is no dot, `substring(-1)` returns the whole (lowercased) string. -/
def extOf (filename : String) : String :=
  match lastDot filename.toList with
  | some i => String.mk ((lowerChars filename).drop i)
  | none => String.mk (lowerChars filename)

/-- `CryptoService.isImageFile` (crypto.ts lines 190-194). -/
def isImageFile (filename : String) : Bool := imageExtensions.contains (extOf filename)

/-- The extension-to-MIME table (crypto.ts lines 201-209). -/
def mimeTypes : List (String × String) :=
  [(".jpg", "image/jpeg"), (".jpeg", "image/jpeg"), (".png", "image/png"),
   (".gif", "image/gif"), (".bmp", "image/bmp"), (".webp", "image/webp"),
   (".svg", "image/svg+xml")]

/-- `CryptoService.getMimeType` (crypto.ts lines 199-211): table lookup on
the extension with an `image/jpeg` default. -/
def getMimeType (filename : String) : String :=
  (mimeTypes.lookup (extOf filename)).getD "image/jpeg"

/-- The base64 alphabet. -/
def base64Chars : List Char :=
  "ABCDEFGHIJKLMNOPQRSTUVWXYZabcdefghijklmnopqrstuvwxyz0123456789+/".toList

/-- Character of a 6-bit group. -/
def b64c (n : Nat) : Char := base64Chars.getD n 'A'

/-- Standard base64 of a byte list, three bytes at a time with '='
padding. -/
def base64Encode : List Nat → List Char
  | [] => []
  | [a] => [b64c (a / 4), b64c (a % 4 * 16), '=', '=']
  | [a, b] => [b64c (a / 4), b64c (a % 4 * 16 + b / 16), b64c (b % 16 * 4), '=']
  | a :: b :: c :: rest =>
      b64c (a / 4) :: b64c (a % 4 * 16 + b / 16) :: b64c (b % 16 * 4 + c / 64) ::
        b64c (c % 64) :: base64Encode rest

/-- `CryptoService.arrayBufferToBase64` (crypto.ts lines 216-223): the
source builds a latin-1 string from the bytes and applies `btoa`, which is
base64 of the bytes. -/
def arrayBufferToBase64 (buffer : List Nat) : String := String.mk (base64Encode buffer)

/-- The data URL built at crypto.ts line 159. -/
def dataUrl (filename : String) (fileData : List Nat) : String :=
  "data:" ++ getMimeType filename ++ ";base64," ++ arrayBufferToBase64 fileData

/-- Assignment `files[filename] = v` on a JavaScript object modelled as an
association list: an existing key keeps its position and gets the new
value, a new key is appended. -/
def insertFile (m : List (String × String)) (k v : String) : List (String × String) :=
  if m.any (fun p => p.1 == k) then m.map (fun p => if p.1 == k then (k, v) else p)
  else m ++ [(k, v)]

/-- One iteration of the entry loop (crypto.ts lines 150-164): non-directory
entries with an allow-listed extension are read and added to the file map;
all other entries are skipped.  The per-entry try/catch at lines 152-163
makes a throwing read skip that entry too (the error is only logged). -/
def entryStep (m : List (String × String)) (e : ZipEntry) : List (String × String) :=
  if !e.dir && isImageFile e.name then
    match e.data with
    | some bytes => insertFile m e.name (dataUrl e.name bytes)
    | none => m
  else m

/-- The extraction stage of `decryptAndExtractZip` (crypto.ts lines
150-176): fold the entry loop over the archive's entries; if no file was
accepted the result is the `No image files found in archive` failure,
otherwise success with the file map. -/
def extractImageFiles (entries : List ZipEntry) : DecryptionResult :=
  let files := entries.foldl entryStep []
  if files.length == 0 then ⟨false, none, some "No image files found in archive"⟩
  else ⟨true, some files, none⟩

/-- The ZIP-loading stage (crypto.ts lines 145-146 with the catch at lines
178-184): the archive library either yields the entry list or throws, in
which case the thrown message is returned as the error. -/
def extractZipStage (loadZip : List Nat → Except String (List ZipEntry)) (d : List Nat) :
    DecryptionResult :=
  match loadZip d with
  | Except.ok entries => extractImageFiles entries
  | Except.error msg => ⟨false, none, some msg⟩

/-- `CryptoService.decryptAndExtractZip` (crypto.ts lines 123-185): try the
direct-key strategy, fall back to the passphrase+salt strategy, fail with
`Failed to decrypt data` if both return null, otherwise extract the ZIP. -/
def decryptAndExtractZip (C : Cipher) (loadZip : List Nat → Except String (List ZipEntry))
    (encryptedData : List Nat) (key : String) (iv : Option String) : DecryptionResult :=
  match decryptAES C encryptedData key iv with
  | some d => extractZipStage loadZip d
  | none =>
    match decryptAESWithSalt C encryptedData key with
    | some d => extractZipStage loadZip d
    | none => ⟨false, none, some "Failed to decrypt data"⟩

/-- Entries accepted by the entry loop's filename check: not a directory
marker and carrying an allow-listed image extension. -/
def acceptedEntries (entries : List ZipEntry) : List ZipEntry :=
  entries.filter (fun e => !e.dir && isImageFile e.name)

/-- Whether the entry's decompression read succeeds (the per-entry
try/catch at crypto.ts lines 152-163 does not throw for it). -/
def readOk (e : ZipEntry) : Bool := e.data.isSome

/-- Entries the loop actually retains: accepted by the filename check and
successfully read. -/
def retainedEntries (entries : List ZipEntry) : List ZipEntry :=
  entries.filter (fun e => (!e.dir && isImageFile e.name) && readOk e)

end CryptoService

/-- A ZIP loader that always throws, standing in for the archive library on
undecodable bytes. -/
def zipLoadCorrupt : List Nat → Except String (List ZipEntry) :=
  fun _ => Except.error "corrupt"

/-- C2 (confirmed): each sender convention round-trips.  Under the
direct-key convention (key = UTF-8 bytes of the key material, IV = first 16
bytes of the transmitted bytes, CBC with PKCS#7 over the rest), encrypting
and then decrypting via strategy 1 reproduces the plaintext byte-for-byte;
under the passphrase+salt convention (salt = first 8 bytes, 48-byte
key stretch yielding a 32-byte key then a 16-byte IV), encrypting and then
decrypting via strategy 2 reproduces the plaintext byte-for-byte.  Holds
for every cipher satisfying the library's interface laws. -/
theorem c2_roundtrip (C : Cipher) (key pass : String) (iv salt pt pt2 : List Nat)
    (hiv : iv.length = 16) (hsalt : salt.length = 8) :
    CryptoService.decryptAES C (encryptDirectKey C key iv pt) key none = some pt ∧
    CryptoService.decryptAESWithSalt C (encryptWithSalt C pass salt pt2) pass = some pt2 := by
  constructor
  · rw [CryptoService.decryptAES, encryptDirectKey,
      List.take_left' hiv, List.drop_left' hiv]
    exact cbc_pad_roundtrip C (utf8Bytes key) iv pt
  · rw [CryptoService.decryptAESWithSalt, encryptWithSalt]
    simp only [List.take_left' hsalt, List.drop_left' hsalt]
    have hlen : ((C.kdf pass salt 12 1000).drop 32).take 16 =
        fit16 (((C.kdf pass salt 12 1000).drop 32).take 16) := by
      rw [fit16_of_length]
      simp only [List.length_take, List.length_drop, C.kdf_len]
      decide
    rw [hlen]
    exact cbc_pad_roundtrip C ((C.kdf pass salt 12 1000).take 32) _ pt2

/-- C2 witness: the round trip evaluated at concrete inputs with the
concrete cipher instance. -/
theorem c2_roundtrip_witness :
    (List.replicate 16 0 : List Nat).length = 16 ∧
    (List.replicate 8 1 : List Nat).length = 8 ∧
    CryptoService.decryptAES idCipher
      (encryptDirectKey idCipher "key" (List.replicate 16 0) [1, 2, 3]) "key" none =
        some [1, 2, 3] ∧
    CryptoService.decryptAESWithSalt idCipher
      (encryptWithSalt idCipher "pass" (List.replicate 8 1) [9]) "pass" = some [9] :=
  ⟨by decide, by decide,
   (c2_roundtrip idCipher "key" "pass" (List.replicate 16 0) (List.replicate 8 1)
     [1, 2, 3] [9] (by decide) (by decide)).1,
   (c2_roundtrip idCipher "key" "pass" (List.replicate 16 0) (List.replicate 8 1)
     [1, 2, 3] [9] (by decide) (by decide)).2⟩

/-- C1 (corrected): the engine tries the direct-key strategy first and the
passphrase+salt strategy exactly when the first fails; the first strategy
to succeed determines the plaintext handed to extraction; when both fail
the outcome is the typed failure with message `Failed to decrypt data`
(the claim's quoted message `unable to decrypt` does not occur in the
code), never a thrown fault. -/
theorem c1_strategy_order (C : Cipher) (L : List Nat → Except String (List ZipEntry))
    (data : List Nat) (key : String) (iv : Option String) :
    (∀ p, CryptoService.decryptAES C data key iv = some p →
      CryptoService.decryptAndExtractZip C L data key iv = CryptoService.extractZipStage L p) ∧
    (CryptoService.decryptAES C data key iv = none →
      ∀ p, CryptoService.decryptAESWithSalt C data key = some p →
        CryptoService.decryptAndExtractZip C L data key iv =
          CryptoService.extractZipStage L p) ∧
    (CryptoService.decryptAES C data key iv = none →
      CryptoService.decryptAESWithSalt C data key = none →
        CryptoService.decryptAndExtractZip C L data key iv =
          ⟨false, none, some "Failed to decrypt data"⟩) := by
  refine ⟨fun p h1 => ?_, fun h1 p h2 => ?_, fun h1 h2 => ?_⟩ <;>
    simp [CryptoService.decryptAndExtractZip, h1]
  · rw [h2]
  · rw [h2]

/-- C1 counterexample to the claim as stated: a ciphertext on which both
strategies fail; the outcome's message is `Failed to decrypt data`, not
the claimed `unable to decrypt`. -/
theorem c1_counterexample :
    CryptoService.decryptAES idCipher
      (List.replicate 23 0 ++ 255 :: List.replicate 7 0 ++ [255]) "k" none = none ∧
    CryptoService.decryptAESWithSalt idCipher
      (List.replicate 23 0 ++ 255 :: List.replicate 7 0 ++ [255]) "k" = none ∧
    (CryptoService.decryptAndExtractZip idCipher zipLoadCorrupt
      (List.replicate 23 0 ++ 255 :: List.replicate 7 0 ++ [255]) "k" none).error =
        some "Failed to decrypt data" ∧
    (CryptoService.decryptAndExtractZip idCipher zipLoadCorrupt
      (List.replicate 23 0 ++ 255 :: List.replicate 7 0 ++ [255]) "k" none).error ≠
        some "unable to decrypt" := by
  refine ⟨by decide, by decide, by decide, by decide⟩

/-- C1 witness: the amended theorem applied at a concrete input on which
both strategies fail. -/
theorem c1_witness :
    CryptoService.decryptAES idCipher
      (List.replicate 23 0 ++ 255 :: List.replicate 7 0 ++ [255]) "kk" none = none ∧
    CryptoService.decryptAESWithSalt idCipher
      (List.replicate 23 0 ++ 255 :: List.replicate 7 0 ++ [255]) "kk" = none ∧
    CryptoService.decryptAndExtractZip idCipher zipLoadCorrupt
      (List.replicate 23 0 ++ 255 :: List.replicate 7 0 ++ [255]) "kk" none =
        ⟨false, none, some "Failed to decrypt data"⟩ :=
  ⟨by decide, by decide,
   (c1_strategy_order idCipher zipLoadCorrupt
     (List.replicate 23 0 ++ 255 :: List.replicate 7 0 ++ [255]) "kk" none).2.2
     (by decide) (by decide)⟩

section ExtractionLemmas

theorem insertFile_ne_nil (m : List (String × String)) (k v : String) :
    CryptoService.insertFile m k v ≠ [] := by
  unfold CryptoService.insertFile
  split
  · cases m with
    | nil => simp_all
    | cons p t => simp
  · simp

theorem keys_insertFile (m : List (String × String)) (k v : String) :
    (CryptoService.insertFile m k v).map Prod.fst =
      if m.any (fun p => p.1 == k) then m.map Prod.fst else m.map Prod.fst ++ [k] := by
  unfold CryptoService.insertFile
  split
  case isTrue h =>
    rw [List.map_map]
    apply List.map_congr_left
    intro p _
    by_cases hpk : p.1 == k
    · have : p.1 = k := by simpa using hpk
      simp [Function.comp, hpk, this]
    · simp [Function.comp, hpk]
  case isFalse h =>
    simp

theorem mem_keys_insertFile (m : List (String × String)) (k v n : String) :
    n ∈ (CryptoService.insertFile m k v).map Prod.fst ↔ n ∈ m.map Prod.fst ∨ n = k := by
  rw [keys_insertFile]
  split
  case isTrue h =>
    rw [List.any_eq_true] at h
    obtain ⟨p, hp, hpk⟩ := h
    have hpk : p.1 = k := by simpa using hpk
    constructor
    · exact Or.inl
    · rintro (hn | rfl)
      · exact hn
      · exact List.mem_map.mpr ⟨p, hp, hpk⟩
  case isFalse h =>
    simp

theorem keys_foldl_entryStep (entries : List ZipEntry) :
    ∀ (m : List (String × String)) (n : String),
      n ∈ (entries.foldl CryptoService.entryStep m).map Prod.fst ↔
        n ∈ m.map Prod.fst ∨ n ∈ (CryptoService.retainedEntries entries).map ZipEntry.name := by
  induction entries with
  | nil => intro m n; simp [CryptoService.retainedEntries]
  | cons e es ih =>
    intro m n
    rw [List.foldl_cons]
    by_cases hcond : (!e.dir && CryptoService.isImageFile e.name) = true
    · cases hdata : e.data with
      | some bytes =>
        have hstep : CryptoService.entryStep m e =
            CryptoService.insertFile m e.name (CryptoService.dataUrl e.name bytes) := by
          simp [CryptoService.entryStep, hcond, hdata]
        have hret : CryptoService.retainedEntries (e :: es) =
            e :: CryptoService.retainedEntries es := by
          simp [CryptoService.retainedEntries, List.filter_cons, hcond,
            CryptoService.readOk, hdata]
        rw [hstep, ih, mem_keys_insertFile, hret]
        simp only [List.map_cons, List.mem_cons]
        tauto
      | none =>
        have hstep : CryptoService.entryStep m e = m := by
          simp [CryptoService.entryStep, hcond, hdata]
        have hret : CryptoService.retainedEntries (e :: es) =
            CryptoService.retainedEntries es := by
          simp [CryptoService.retainedEntries, List.filter_cons, hcond,
            CryptoService.readOk, hdata]
        rw [hstep, ih, hret]
    · have hstep : CryptoService.entryStep m e = m := by
        simp only [CryptoService.entryStep, hcond]
        simp
      have hret : CryptoService.retainedEntries (e :: es) =
          CryptoService.retainedEntries es := by
        simp [CryptoService.retainedEntries, List.filter_cons, hcond]
      rw [hstep, ih, hret]

theorem foldl_entryStep_eq_nil (entries : List ZipEntry) :
    ∀ m, entries.foldl CryptoService.entryStep m = [] ↔
      (m = [] ∧ CryptoService.retainedEntries entries = []) := by
  induction entries with
  | nil => intro m; simp [CryptoService.retainedEntries]
  | cons e es ih =>
    intro m
    rw [List.foldl_cons]
    by_cases hcond : (!e.dir && CryptoService.isImageFile e.name) = true
    · cases hdata : e.data with
      | some bytes =>
        have hstep : CryptoService.entryStep m e =
            CryptoService.insertFile m e.name (CryptoService.dataUrl e.name bytes) := by
          simp [CryptoService.entryStep, hcond, hdata]
        have hret : CryptoService.retainedEntries (e :: es) =
            e :: CryptoService.retainedEntries es := by
          simp [CryptoService.retainedEntries, List.filter_cons, hcond,
            CryptoService.readOk, hdata]
        rw [hstep, ih, hret]
        constructor
        · rintro ⟨h1, _⟩
          exact absurd h1 (insertFile_ne_nil m e.name _)
        · rintro ⟨_, h2⟩
          simp at h2
      | none =>
        have hstep : CryptoService.entryStep m e = m := by
          simp [CryptoService.entryStep, hcond, hdata]
        have hret : CryptoService.retainedEntries (e :: es) =
            CryptoService.retainedEntries es := by
          simp [CryptoService.retainedEntries, List.filter_cons, hcond,
            CryptoService.readOk, hdata]
        rw [hstep, ih, hret]
    · have hstep : CryptoService.entryStep m e = m := by
        simp only [CryptoService.entryStep, hcond]
        simp
      have hret : CryptoService.retainedEntries (e :: es) =
          CryptoService.retainedEntries es := by
        simp [CryptoService.retainedEntries, List.filter_cons, hcond]
      rw [hstep, ih, hret]

end ExtractionLemmas


theorem toNat_ofNat_valid {n : Nat} (h : n.isValidChar) : (Char.ofNat n).toNat = n := by
  rw [Char.ofNat, dif_pos h]
  rfl

theorem toLower_eq_dot {c : Char} (h : Char.toLower c = '.') : c = '.' := by
  simp only [Char.toLower] at h
  split at h
  case isTrue hcond =>
    exfalso
    have hvalid : (c.toNat + 32).isValidChar := Or.inl (by omega)
    have hval := toNat_ofNat_valid hvalid
    rw [h] at hval
    have h46 : ('.' : Char).toNat = 46 := rfl
    omega
  case isFalse hcond => exact h

theorem mem_enumFrom_of_mem {α : Type} :
    ∀ (l : List α) (n : Nat) (c : α), c ∈ l → ∃ i, (i, c) ∈ l.enumFrom n := by
  intro l
  induction l with
  | nil => intro n c hc; simp at hc
  | cons a t ih =>
    intro n c hc
    rcases List.mem_cons.mp hc with rfl | hc
    · exact ⟨n, by simp⟩
    · obtain ⟨i, hi⟩ := ih (n + 1) c hc
      exact ⟨i, by simp [hi]⟩

theorem lastDot_none_no_dot (cs : List Char) (h : CryptoService.lastDot cs = none) :
    '.' ∉ cs := by
  intro hdot
  unfold CryptoService.lastDot at h
  rw [List.getLast?_eq_none_iff] at h
  rw [List.map_eq_nil_iff, List.filter_eq_nil_iff] at h
  obtain ⟨i, hi⟩ := mem_enumFrom_of_mem cs 0 '.' hdot
  exact h (i, '.') hi rfl

/-- Specification-side predicate, following the spec's words: the filename
extension (the segment from the last dot onward), compared
case-insensitively against the allow-list jpg, jpeg, png, gif, bmp, webp,
svg; a name without a dot has no extension and is never an image. -/
def specIsImageName (name : String) : Bool :=
  match CryptoService.lastDot name.toList with
  | some i =>
      CryptoService.imageExtensions.contains (String.mk ((CryptoService.lowerChars name).drop i))
  | none => false

/-- The code's extension test agrees with the specification-side predicate
on every filename; in particular the code's no-dot fallback (comparing the
whole lowercased name against the dotted allow-list) never accepts. -/
theorem isImageFile_eq_spec (name : String) :
    CryptoService.isImageFile name = specIsImageName name := by
  unfold CryptoService.isImageFile specIsImageName CryptoService.extOf
  cases hld : CryptoService.lastDot name.toList with
  | some i => rfl
  | none =>
    have hnd : '.' ∉ name.toList := lastDot_none_no_dot _ hld
    rw [Bool.eq_false_iff]
    intro hcon
    have hmem : String.mk (CryptoService.lowerChars name) ∈ CryptoService.imageExtensions := by
      simpa [List.contains, List.elem_iff] using hcon
    have hall : ∀ e ∈ CryptoService.imageExtensions, '.' ∈ e.data := by decide
    have hdotLower : '.' ∈ CryptoService.lowerChars name := hall _ hmem
    obtain ⟨c, hc, hcl⟩ := List.mem_map.mp hdotLower
    have hc2 : c = '.' := toLower_eq_dot hcl
    exact hnd (hc2 ▸ hc)

/-- C3 (corrected): the extraction loop considers exactly the
non-directory entries whose extension is in the allow-list
(case-insensitively, proved equivalent to the spec-side last-dot
predicate); entries failing the check are silently skipped, and an
accepted entry whose decompression read throws is also silently skipped
(the per-entry try/catch), so the image set holds exactly the accepted
entries whose read succeeds.  If zero entries are retained the result is
the typed failure — whose message in the code is
`No image files found in archive`, not the claimed
`no image files found` — and extraction never succeeds with an empty
image set.  When every accepted entry's read succeeds, the retained set is
exactly the accepted set, recovering the claim's filtering behaviour. -/
theorem c3_extraction (entries : List ZipEntry) :
    ((CryptoService.extractImageFiles entries).success = true ↔
      CryptoService.retainedEntries entries ≠ []) ∧
    (CryptoService.retainedEntries entries = [] →
      CryptoService.extractImageFiles entries =
        ⟨false, none, some "No image files found in archive"⟩) ∧
    (∀ fs, (CryptoService.extractImageFiles entries).files = some fs →
      fs ≠ [] ∧
        ∀ n, n ∈ fs.map Prod.fst ↔
          n ∈ (CryptoService.retainedEntries entries).map ZipEntry.name) ∧
    CryptoService.retainedEntries entries =
      (CryptoService.acceptedEntries entries).filter CryptoService.readOk ∧
    ((∀ e ∈ CryptoService.acceptedEntries entries, CryptoService.readOk e = true) →
      CryptoService.retainedEntries entries = CryptoService.acceptedEntries entries) ∧
    CryptoService.acceptedEntries entries =
      entries.filter (fun e => !e.dir && specIsImageName e.name) := by
  have hq : CryptoService.acceptedEntries entries =
      entries.filter (fun e => !e.dir && specIsImageName e.name) := by
    unfold CryptoService.acceptedEntries
    exact List.filter_congr (fun e _ => by rw [isImageFile_eq_spec])
  have hq2 : CryptoService.retainedEntries entries =
      (CryptoService.acceptedEntries entries).filter CryptoService.readOk := by
    unfold CryptoService.retainedEntries CryptoService.acceptedEntries
    rw [List.filter_filter]
    exact List.filter_congr (fun e _ => Bool.and_comm _ _)
  have hq3 : (∀ e ∈ CryptoService.acceptedEntries entries, CryptoService.readOk e = true) →
      CryptoService.retainedEntries entries = CryptoService.acceptedEntries entries := by
    intro hall
    rw [hq2]
    exact List.filter_eq_self.mpr hall
  have hnil := foldl_entryStep_eq_nil entries []
  have hkeys := keys_foldl_entryStep entries []
  unfold CryptoService.extractImageFiles
  by_cases hF : entries.foldl CryptoService.entryStep [] = []
  · have hret : CryptoService.retainedEntries entries = [] := (hnil.mp hF).2
    rw [if_pos (by simp [hF])]
    refine ⟨?_, fun _ => rfl, ?_, hq2, hq3, hq⟩
    · simp [hret]
    · intro fs hfs
      simp at hfs
  · have hret : CryptoService.retainedEntries entries ≠ [] := by
      intro hcon
      exact hF (hnil.mpr ⟨rfl, hcon⟩)
    rw [if_neg (by simpa using hF)]
    refine ⟨by simpa using hret, fun hcon => absurd hcon hret, ?_, hq2, hq3, hq⟩
    intro fs hfs
    have hfs : fs = entries.foldl CryptoService.entryStep [] := by
      simpa using hfs.symm
    subst hfs
    refine ⟨hF, fun n => ?_⟩
    rw [hkeys n]
    simp

/-- C3 counterexample to the claim as stated, in both respects: an archive
with a single non-image entry is rejected with the message
`No image files found in archive`, not the claimed
`no image files found`; and an archive whose only entry is an accepted
`.png` with a throwing decompression read is rejected too, so extraction
does not keep every allow-listed non-directory entry. -/
theorem c3_counterexample :
    CryptoService.extractImageFiles [⟨"notes.txt", false, some []⟩] =
      ⟨false, none, some "No image files found in archive"⟩ ∧
    (CryptoService.extractImageFiles [⟨"notes.txt", false, some []⟩]).error ≠
      some "no image files found" ∧
    CryptoService.acceptedEntries [⟨"img.png", false, none⟩] ≠ [] ∧
    CryptoService.extractImageFiles [⟨"img.png", false, none⟩] =
      ⟨false, none, some "No image files found in archive"⟩ := by
  refine ⟨by decide, by decide, by decide, by decide⟩

/-- C3 witness: the amended theorem applied to an archive containing only a
text entry. -/
theorem c3_witness :
    CryptoService.retainedEntries [⟨"readme.txt", false, some []⟩] = [] ∧
    CryptoService.extractImageFiles [⟨"readme.txt", false, some []⟩] =
      ⟨false, none, some "No image files found in archive"⟩ :=
  ⟨by decide, (c3_extraction [⟨"readme.txt", false, some []⟩]).2.1 (by decide)⟩

/-- A JSON value as `JSON.parse` produces it (numbers simplified to
integers; none of the claims depend on fractional values). -/
inductive JsonVal where
  | null : JsonVal
  | bool (b : Bool) : JsonVal
  | num (n : Int) : JsonVal
  | str (s : String) : JsonVal
  | arr (xs : List JsonVal) : JsonVal
  | obj (fields : List (String × JsonVal)) : JsonVal

/-- Property read `v.f` on a JavaScript value: `none` models `undefined`.
Objects built by `JSON.parse` keep the last duplicate key, hence the
reversed lookup. -/
def getField (v : JsonVal) (f : String) : Option JsonVal :=
  match v with
  | JsonVal.obj fields => (fields.reverse.find? (fun p => p.1 == f)).map (fun p => p.2)
  | _ => none

/-- JavaScript truthiness of a possibly-undefined value. -/
def truthy : Option JsonVal → Bool
  | none => false
  | some JsonVal.null => false
  | some (JsonVal.bool b) => b
  | some (JsonVal.num n) => n != 0
  | some (JsonVal.str s) => s != ""
  | some (JsonVal.arr _) => true
  | some (JsonVal.obj _) => true

/-- `String.prototype.startsWith`, modelled character-wise. -/
def jsStartsWith (s p : String) : Bool := s.toList.take p.toList.length == p.toList

namespace SecureWebSocketService

/-- `SecureWebSocketService.parseQRData` (src/src/services/websocket.ts
lines 139-154), parameterised by the runtime's `JSON.parse` (`none` models
a thrown parse error).  If parsing succeeds and the parsed value's `url`
field is truthy, the parsed value is returned wholesale; only when parsing
throws is the raw string checked for a `ws://` or `wss://` prefix and
wrapped; every other input yields `none` (null). -/
def parseQRData (jsonParse : String → Option JsonVal) (qrData : String) : Option JsonVal :=
  match jsonParse qrData with
  | some parsed => if truthy (getField parsed "url") then some parsed else none
  | none =>
      if jsStartsWith qrData "ws://" || jsStartsWith qrData "wss://" then
        some (JsonVal.obj [("url", JsonVal.str qrData)])
      else none

end SecureWebSocketService

/-- `JSON.parse` restricted to the single descriptor string used in the C4
counterexample: the object text with an empty `url` string parses to the
corresponding object value (exactly as the ECMAScript parser would). -/
def jsonParseEmptyUrl : String → Option JsonVal :=
  fun s =>
    if s = "\x7b\"url\":\"\"\x7d" then some (JsonVal.obj [("url", JsonVal.str "")])
    else none

/-- A runtime JSON parser that throws on every input (models scanning a
plain, non-JSON string). -/
def jsonParseFail : String → Option JsonVal := fun _ => none

/-- `JSON.parse` restricted to the single string used in the C10 witness: a
descriptor with an extra field and a non-WebSocket `url` scheme. -/
def jsonParseExtra : String → Option JsonVal :=
  fun s =>
    if s = "x" then
      some (JsonVal.obj [("url", JsonVal.str "http://h"), ("extra", JsonVal.num 5)])
    else none

/-- C4 (corrected): the parser is a deterministic total function (modelled
as such: every branch yields a value, the source catches the only throwing
call).  A JSON-parseable descriptor is returned wholesale exactly when its
`url` field is truthy; when it parses with a falsy `url` field (absent,
empty string, 0, null, false) the result is `None` — so the claim's
unconditional "valid JSON descriptor object with an endpoint field"
guarantee fails for a falsy endpoint such as the empty string.  Strings
that do not parse yield `None` unless prefixed `ws://` or `wss://`. -/
theorem c4_descriptor (jp : String → Option JsonVal) (s : String) :
    (∀ v, jp s = some v → truthy (getField v "url") = true →
      SecureWebSocketService.parseQRData jp s = some v) ∧
    (∀ v, jp s = some v → truthy (getField v "url") = false →
      SecureWebSocketService.parseQRData jp s = none) ∧
    (jp s = none → (jsStartsWith s "ws://" || jsStartsWith s "wss://") = false →
      SecureWebSocketService.parseQRData jp s = none) ∧
    (jp s = none → (jsStartsWith s "ws://" || jsStartsWith s "wss://") = true →
      SecureWebSocketService.parseQRData jp s =
        some (JsonVal.obj [("url", JsonVal.str s)])) := by
  refine ⟨fun v h1 h2 => ?_, fun v h1 h2 => ?_, fun h1 h2 => ?_, fun h1 h2 => ?_⟩ <;>
    simp [SecureWebSocketService.parseQRData, h1, h2]

/-- C4 counterexample to the claim as stated: the string
`&#123;"url":""&#125;` (braces elided) is a valid JSON descriptor object
carrying an `url` field, yet the parser returns `None` because the empty
string is falsy. -/
theorem c4_counterexample :
    jsonParseEmptyUrl "\x7b\"url\":\"\"\x7d" = some (JsonVal.obj [("url", JsonVal.str "")]) ∧
    SecureWebSocketService.parseQRData jsonParseEmptyUrl "\x7b\"url\":\"\"\x7d" = none :=
  ⟨rfl, rfl⟩

/-- C4 witness: the amended theorem applied to a plain non-JSON,
non-WebSocket string. -/
theorem c4_witness :
    jsonParseFail "hello" = none ∧
    (jsStartsWith "hello" "ws://" || jsStartsWith "hello" "wss://") = false ∧
    SecureWebSocketService.parseQRData jsonParseFail "hello" = none :=
  ⟨rfl, by decide, (c4_descriptor jsonParseFail "hello").2.2.1 rfl (by decide)⟩

/-- C10 (confirmed): when the scanned string parses as JSON, any value with
a truthy `url` field is accepted and returned wholesale (extra fields
preserved, no scheme check); the `ws://`/`wss://` prefix check runs only on
the fallback path taken when `JSON.parse` throws. -/
theorem c10_json_truthy_url (jp : String → Option JsonVal) (s : String) (v : JsonVal) :
    (jp s = some v → truthy (getField v "url") = true →
      SecureWebSocketService.parseQRData jp s = some v) ∧
    (jp s = none →
      SecureWebSocketService.parseQRData jp s =
        (if jsStartsWith s "ws://" || jsStartsWith s "wss://" then
          some (JsonVal.obj [("url", JsonVal.str s)])
        else none)) := by
  constructor
  · intro h1 h2
    simp [SecureWebSocketService.parseQRData, h1, h2]
  · intro h1
    simp [SecureWebSocketService.parseQRData, h1]

/-- C10 witness: a parsed descriptor with an extra field and an `http`
scheme is returned wholesale, scheme unchecked. -/
theorem c10_witness :
    jsonParseExtra "x" =
      some (JsonVal.obj [("url", JsonVal.str "http://h"), ("extra", JsonVal.num 5)]) ∧
    truthy (getField
      (JsonVal.obj [("url", JsonVal.str "http://h"), ("extra", JsonVal.num 5)]) "url") = true ∧
    SecureWebSocketService.parseQRData jsonParseExtra "x" =
      some (JsonVal.obj [("url", JsonVal.str "http://h"), ("extra", JsonVal.num 5)]) :=
  ⟨rfl, rfl,
   (c10_json_truthy_url jsonParseExtra "x"
     (JsonVal.obj [("url", JsonVal.str "http://h"), ("extra", JsonVal.num 5)])).1 rfl rfl⟩

/-- `ConnectionStatus` (websocket.ts line 1). -/
inductive ConnectionStatus where
  | disconnected : ConnectionStatus
  | connecting : ConnectionStatus
  | connected : ConnectionStatus
  | error : ConnectionStatus
deriving DecidableEq

/-- Browser WebSocket ready states. -/
inductive ReadyState where
  | CONNECTING : ReadyState
  | OPEN : ReadyState
  | CLOSING : ReadyState
  | CLOSED : ReadyState
deriving DecidableEq

/-- The observable state of one `SecureWebSocketService` instance together
with its environment: the service's fields (websocket.ts lines 10-14), the
last status it reported through `onStatusChange`, every socket the browser
has created for it (identified by allocation index) with its current ready
state, and the delays of timers that have been scheduled but have not yet
fired. -/
structure World where
  ws : Option Nat
  url : String
  reconnectAttempts : Nat
  maxReconnectAttempts : Nat
  reconnectDelay : Nat
  status : ConnectionStatus
  sockets : List (Nat × ReadyState)
  nextId : Nat
  pendingReconnects : List Nat
  pendingConnectTimeouts : List Nat
deriving DecidableEq

namespace SecureWebSocketService

/-- A fresh service instance (field initialisers, websocket.ts lines
10-14). -/
def initWorld : World :=
  { ws := none, url := "", reconnectAttempts := 0, maxReconnectAttempts := 3,
    reconnectDelay := 1000, status := ConnectionStatus.disconnected, sockets := [],
    nextId := 0, pendingReconnects := [], pendingConnectTimeouts := [] }

/-- Ready state of a socket by id. -/
def readyStateOf (w : World) (sid : Nat) : Option ReadyState :=
  (w.sockets.find? (fun p => p.1 == sid)).map (fun p => p.2)

/-- Update a socket's ready state. -/
def setSocketState (sockets : List (Nat × ReadyState)) (sid : Nat) (st : ReadyState) :
    List (Nat × ReadyState) :=
  sockets.map (fun p => if p.1 == sid then (p.1, st) else p)

/-- `connect` (websocket.ts lines 20-34 and 72-78): store the url, report
`connecting`, create a new socket and point `this.ws` at it, and arm the
fixed 10000 ms connection timeout.  The previous socket, if any, is neither
closed nor touched. -/
def connect (w : World) (u : String) : World :=
  { w with
    url := u,
    status := ConnectionStatus.connecting,
    ws := some w.nextId,
    sockets := w.sockets ++ [(w.nextId, ReadyState.CONNECTING)],
    nextId := w.nextId + 1,
    pendingConnectTimeouts := w.pendingConnectTimeouts ++ [10000] }

/-- The `onopen` handler (websocket.ts lines 29-34) together with the
browser marking the socket open: the attempt counter resets and the status
becomes `connected`. -/
def onOpen (w : World) (sid : Nat) : World :=
  { w with
    sockets := setSocketState w.sockets sid ReadyState.OPEN,
    reconnectAttempts := 0,
    status := ConnectionStatus.connected }

/-- The `onerror` handler (websocket.ts lines 55-60): report `error` and
reject the pending connect promise (the returned flag). -/
def onError (w : World) : World × Bool :=
  ({ w with status := ConnectionStatus.error }, true)

/-- `reconnect` (websocket.ts lines 88-99): increment the attempt counter
and schedule a timer for `reconnectDelay * attempts` milliseconds. -/
def reconnectStep (w : World) : World :=
  let a := w.reconnectAttempts + 1
  { w with
    reconnectAttempts := a,
    pendingReconnects := w.pendingReconnects ++ [w.reconnectDelay * a] }

/-- The `onclose` handler (websocket.ts lines 62-70) together with the
browser marking the socket closed: report `disconnected`, and on an
unclean close with attempts remaining schedule a reconnect. -/
def onClose (w : World) (sid : Nat) (wasClean : Bool) : World :=
  let w1 := { w with
    sockets := setSocketState w.sockets sid ReadyState.CLOSED,
    status := ConnectionStatus.disconnected }
  if !wasClean && decide (w1.reconnectAttempts < w1.maxReconnectAttempts) then
    reconnectStep w1
  else w1

/-- The body of the timer scheduled by `reconnect` (websocket.ts lines
92-98): when it fires the timer leaves the pending set, and if the attempt
counter has not passed the maximum, `connect` is called on the stored
url. -/
def fireReconnect (w : World) (d : Nat) : World :=
  let w1 := { w with pendingReconnects := w.pendingReconnects.erase d }
  if w1.reconnectAttempts ≤ w1.maxReconnectAttempts then connect w1 w1.url else w1

/-- `disconnect` (websocket.ts lines 114-120): close the tracked socket (a
clean close with code 1000), drop the reference, and report
`disconnected`.  Nothing else is modified: pending timers stay scheduled
and the attempt counter keeps its value. -/
def disconnect (w : World) : World :=
  match w.ws with
  | some sid =>
      { w with
        sockets := setSocketState w.sockets sid ReadyState.CLOSING,
        ws := none,
        status := ConnectionStatus.disconnected }
  | none => { w with status := ConnectionStatus.disconnected }

/-- The body of the connection timeout (websocket.ts lines 72-78): when it
fires, if the currently tracked socket is not OPEN (or there is none, the
optional chain reading undefined), the socket is closed and the pending
connect promise rejects (the returned flag); the handler itself never
touches the reported status. -/
def fireConnectTimeout (w : World) : World × Bool :=
  let w1 := { w with pendingConnectTimeouts := w.pendingConnectTimeouts.erase 10000 }
  match w1.ws with
  | some sid =>
      if readyStateOf w1 sid ≠ some ReadyState.OPEN then
        ({ w1 with sockets := setSocketState w1.sockets sid ReadyState.CLOSING }, true)
      else (w1, false)
  | none => (w1, true)

/-- An unclean close of the currently tracked socket. -/
def closeCurrentUnclean (w : World) : World :=
  match w.ws with
  | some sid => onClose w sid false
  | none => w

/-- One cycle of the reconnect scenario: the tracked socket closes
uncleanly; if that scheduled a reconnect timer, the timer then fires
(performing the retry).  Returns the delay the cycle waited, if any. -/
def cycleStep (w : World) : World × Option Nat :=
  let w1 := closeCurrentUnclean w
  match w1.pendingReconnects with
  | [] => (w1, none)
  | d :: _ => (fireReconnect w1 d, some d)

/-- Run `n` consecutive unclean-closure cycles, collecting the delays of
the reconnect attempts that were performed. -/
def runCycles : Nat → World → World × List Nat
  | 0, w => (w, [])
  | n + 1, w =>
      ((runCycles n (cycleStep w).1).1,
        (cycleStep w).2.toList ++ (runCycles n (cycleStep w).1).2)

/-- Number of sockets currently active (connecting or open). -/
def activeCount (w : World) : Nat :=
  (w.sockets.filter (fun p => p.2 == ReadyState.CONNECTING || p.2 == ReadyState.OPEN)).length

end SecureWebSocketService

open SecureWebSocketService

/-- The world after the first unclean-closure cycle of the reconnect
scenario started by `connect initWorld u`. -/
def c5World1 (u : String) : World :=
  { ws := some 1, url := u, reconnectAttempts := 1, maxReconnectAttempts := 3,
    reconnectDelay := 1000, status := ConnectionStatus.connecting,
    sockets := [(0, ReadyState.CLOSED), (1, ReadyState.CONNECTING)], nextId := 2,
    pendingReconnects := [], pendingConnectTimeouts := [10000, 10000] }

/-- The world after the second cycle. -/
def c5World2 (u : String) : World :=
  { ws := some 2, url := u, reconnectAttempts := 2, maxReconnectAttempts := 3,
    reconnectDelay := 1000, status := ConnectionStatus.connecting,
    sockets := [(0, ReadyState.CLOSED), (1, ReadyState.CLOSED), (2, ReadyState.CONNECTING)],
    nextId := 3, pendingReconnects := [],
    pendingConnectTimeouts := [10000, 10000, 10000] }

/-- The world after the third cycle (the third and last retry in flight). -/
def c5World3 (u : String) : World :=
  { ws := some 3, url := u, reconnectAttempts := 3, maxReconnectAttempts := 3,
    reconnectDelay := 1000, status := ConnectionStatus.connecting,
    sockets := [(0, ReadyState.CLOSED), (1, ReadyState.CLOSED), (2, ReadyState.CLOSED),
      (3, ReadyState.CONNECTING)],
    nextId := 4, pendingReconnects := [],
    pendingConnectTimeouts := [10000, 10000, 10000, 10000] }

/-- The world after the fourth cycle: the attempt budget is exhausted, the
status settles at disconnected and no timer is pending. -/
def c5World4 (u : String) : World :=
  { ws := some 3, url := u, reconnectAttempts := 3, maxReconnectAttempts := 3,
    reconnectDelay := 1000, status := ConnectionStatus.disconnected,
    sockets := [(0, ReadyState.CLOSED), (1, ReadyState.CLOSED), (2, ReadyState.CLOSED),
      (3, ReadyState.CLOSED)],
    nextId := 4, pendingReconnects := [],
    pendingConnectTimeouts := [10000, 10000, 10000, 10000] }

theorem c5_cycle1 (u : String) :
    cycleStep (connect initWorld u) = (c5World1 u, some 1000) := by
  simp [cycleStep, closeCurrentUnclean, onClose, reconnectStep, fireReconnect, connect,
    setSocketState, initWorld, c5World1, List.erase]

theorem c5_cycle2 (u : String) : cycleStep (c5World1 u) = (c5World2 u, some 2000) := by
  simp [cycleStep, closeCurrentUnclean, onClose, reconnectStep, fireReconnect, connect,
    setSocketState, c5World1, c5World2, List.erase]

theorem c5_cycle3 (u : String) : cycleStep (c5World2 u) = (c5World3 u, some 3000) := by
  simp [cycleStep, closeCurrentUnclean, onClose, reconnectStep, fireReconnect, connect,
    setSocketState, c5World2, c5World3, List.erase]

theorem c5_cycle4 (u : String) : cycleStep (c5World3 u) = (c5World4 u, none) := by
  simp [cycleStep, closeCurrentUnclean, onClose, reconnectStep, fireReconnect, connect,
    setSocketState, c5World3, c5World4, List.erase]

theorem c5_cycle_fixed (u : String) : cycleStep (c5World4 u) = (c5World4 u, none) := by
  simp [cycleStep, closeCurrentUnclean, onClose, reconnectStep, fireReconnect, connect,
    setSocketState, c5World4, List.erase]

theorem runCycles_fixed (w : World) (h : cycleStep w = (w, none)) :
    ∀ n, runCycles n w = (w, []) := by
  intro n
  induction n with
  | zero => rfl
  | succ n ih => simp [runCycles, h, ih]

theorem runCycles_split (k : Nat) :
    ∀ (m : Nat) (w : World),
      runCycles (m + k) w =
        ((runCycles m (runCycles k w).1).1,
          (runCycles k w).2 ++ (runCycles m (runCycles k w).1).2) := by
  induction k with
  | zero => intro m w; simp [runCycles]
  | succ k ih =>
    intro m w
    have hms : m + (k + 1) = (m + k) + 1 := by omega
    rw [hms]
    simp only [runCycles]
    rw [ih m (cycleStep w).1]
    simp [List.append_assoc]

/-- C5 (confirmed): starting from a fresh connection, consecutive unclean
closures cause at most 3 reconnect attempts, the n-th (1-indexed) waiting
`reconnectDelay * n = 1000 * n` milliseconds before retrying the stored
endpoint; a 4th automatic attempt never occurs, and once the budget is
exhausted the session settles at `disconnected` with no timer pending. -/
theorem c5_reconnect_policy (u : String) (n : Nat) :
    (runCycles n (connect initWorld u)).2 =
      (List.range (min n 3)).map (fun i => 1000 * (i + 1)) ∧
    (runCycles n (connect initWorld u)).1.url = u ∧
    (4 ≤ n →
      (runCycles n (connect initWorld u)).1.status = ConnectionStatus.disconnected ∧
      (runCycles n (connect initWorld u)).1.pendingReconnects = []) := by
  obtain _ | _ | _ | _ | m := n
  · exact ⟨by simp [runCycles], rfl, fun h => absurd h (by omega)⟩
  · refine ⟨?_, ?_, fun h => absurd h (by omega)⟩
    · simp [runCycles, c5_cycle1]
      decide
    · simp [runCycles, c5_cycle1, c5World1]
  · refine ⟨?_, ?_, fun h => absurd h (by omega)⟩
    · simp [runCycles, c5_cycle1, c5_cycle2]
      decide
    · simp [runCycles, c5_cycle1, c5_cycle2, c5World2]
  · refine ⟨?_, ?_, fun h => absurd h (by omega)⟩
    · simp [runCycles, c5_cycle1, c5_cycle2, c5_cycle3]
      decide
    · simp [runCycles, c5_cycle1, c5_cycle2, c5_cycle3, c5World3]
  · have hn4 : m + 1 + 1 + 1 + 1 = m + 4 := rfl
    have h4 : runCycles 4 (connect initWorld u) = (c5World4 u, [1000, 2000, 3000]) := by
      simp [runCycles, c5_cycle1, c5_cycle2, c5_cycle3, c5_cycle4]
    have hm : runCycles m (c5World4 u) = (c5World4 u, []) :=
      runCycles_fixed _ (c5_cycle_fixed u) m
    have hsplit := runCycles_split 4 m (connect initWorld u)
    rw [h4] at hsplit
    simp only [hm, List.append_nil] at hsplit
    have hmin : min (m + 4) 3 = 3 := by omega
    rw [hn4, hsplit, hmin]
    refine ⟨rfl, by simp [c5World4], fun _ => ⟨by simp [c5World4], by simp [c5World4]⟩⟩

/-- C5 witness: five consecutive unclean-closure cycles on a concrete
endpoint perform exactly the three delays 1000, 2000, 3000 and settle at
disconnected with nothing pending. -/
theorem c5_witness :
    4 ≤ 5 ∧
    (runCycles 5 (connect initWorld "ws://h")).2 =
      (List.range (min 5 3)).map (fun i => 1000 * (i + 1)) ∧
    (runCycles 5 (connect initWorld "ws://h")).1.status = ConnectionStatus.disconnected :=
  ⟨by decide, (c5_reconnect_policy "ws://h" 5).1,
   ((c5_reconnect_policy "ws://h" 5).2.2 (by decide)).1⟩

/-- C6 (corrected): `disconnect()` closes the tracked socket and reports
`disconnected`, but it cancels nothing and clears nothing: the scheduled
reconnect timers and the attempt counter are left exactly as they were
(only a successful open resets the counter, websocket.ts line 31), so a
pending reconnect can still fire after an explicit client disconnect. -/
theorem c6_disconnect (w : World) :
    (disconnect w).pendingReconnects = w.pendingReconnects ∧
    (disconnect w).reconnectAttempts = w.reconnectAttempts ∧
    (disconnect w).status = ConnectionStatus.disconnected ∧
    (disconnect w).ws = none := by
  cases hws : w.ws <;> simp [disconnect, hws]

/-- C6 counterexample to the claim as stated: after one unclean close
schedules a reconnect, calling `disconnect()` leaves the 1000 ms timer
pending and the attempt counter at 1 (not 0), and when the timer fires the
service reconnects (status `connecting`, a fresh socket tracked) despite
the explicit client disconnect. -/
theorem c6_counterexample :
    (disconnect (onClose (connect initWorld "ws://h") 0 false)).pendingReconnects = [1000] ∧
    (disconnect (onClose (connect initWorld "ws://h") 0 false)).reconnectAttempts = 1 ∧
    (fireReconnect (disconnect (onClose (connect initWorld "ws://h") 0 false)) 1000).status =
      ConnectionStatus.connecting ∧
    (fireReconnect (disconnect (onClose (connect initWorld "ws://h") 0 false)) 1000).ws =
      some 1 := by
  decide

/-- C7 (corrected): `connect` arms the fixed 10000 ms connection timeout;
when the timeout fires with the tracked connection not OPEN, the pending
connect operation rejects and the socket is closed, but the timeout path
leaves the reported status unchanged (it never reports `error`); only the
transport-error handler reports `error`, and it also rejects. -/
theorem c7_timeout (w : World) (u : String) (sid : Nat) :
    (connect w u).pendingConnectTimeouts = w.pendingConnectTimeouts ++ [10000] ∧
    (w.ws = some sid → readyStateOf w sid ≠ some ReadyState.OPEN →
      (fireConnectTimeout w).2 = true ∧ (fireConnectTimeout w).1.status = w.status) ∧
    ((onError w).1.status = ConnectionStatus.error ∧ (onError w).2 = true) := by
  refine ⟨rfl, fun h1 h2 => ?_, rfl, rfl⟩
  rcases w with ⟨ws, url, ra, mra, rd, st, sk, ni, pr, pct⟩
  obtain rfl : ws = some sid := h1
  simp only [readyStateOf] at h2
  simp [fireConnectTimeout, readyStateOf, h2]

/-- C7 counterexample to the claim as stated: when the timeout fires while
the socket is still connecting, the operation rejects but the status stays
`connecting` — it does not transition to `error`. -/
theorem c7_counterexample :
    (fireConnectTimeout (connect initWorld "ws://h")).2 = true ∧
    (fireConnectTimeout (connect initWorld "ws://h")).1.status = ConnectionStatus.connecting ∧
    (fireConnectTimeout (connect initWorld "ws://h")).1.status ≠ ConnectionStatus.error := by
  decide

/-- C7 witness: the amended theorem applied to a freshly connecting
service. -/
theorem c7_witness :
    (connect initWorld "ws://h").ws = some 0 ∧
    readyStateOf (connect initWorld "ws://h") 0 ≠ some ReadyState.OPEN ∧
    (fireConnectTimeout (connect initWorld "ws://h")).2 = true ∧
    (fireConnectTimeout (connect initWorld "ws://h")).1.status =
      (connect initWorld "ws://h").status :=
  ⟨by decide, by decide,
   ((c7_timeout (connect initWorld "ws://h") "ws://b" 0).2.1 (by decide) (by decide)).1,
   ((c7_timeout (connect initWorld "ws://h") "ws://b" 0).2.1 (by decide) (by decide)).2⟩

/-- C8 (corrected): the service tracks at most one socket (`this.ws`), but
`connect` does not close an existing connection: it only repoints the
reference, so connecting while a connection is open or connecting leaves
the previous socket alive and the number of active connections grows by
one. -/
theorem c8_connect_leaks (w : World) (u : String) :
    (connect w u).ws = some w.nextId ∧
    activeCount (connect w u) = activeCount w + 1 ∧
    (∀ p, p ∈ w.sockets → p ∈ (connect w u).sockets) := by
  refine ⟨rfl, ?_, fun p hp => ?_⟩
  · simp [activeCount, connect, List.filter_append]
  · simp [connect, hp]

/-- C8 counterexample to the claim as stated: connect, open, connect again
is a reachable sequence after which two connections are simultaneously
active (the first still OPEN, the second CONNECTING), violating the
at-most-one-active-connection invariant. -/
theorem c8_counterexample :
    activeCount (connect (onOpen (connect initWorld "ws://a") 0) "ws://b") = 2 ∧
    readyStateOf (connect (onOpen (connect initWorld "ws://a") 0) "ws://b") 0 =
      some ReadyState.OPEN ∧
    (connect (onOpen (connect initWorld "ws://a") 0) "ws://b").ws = some 1 := by
  decide

/-- C8 witness: the amended theorem applied while a connection is open; the
open socket survives the second connect. -/
theorem c8_witness :
    (0, ReadyState.OPEN) ∈ (onOpen (connect initWorld "ws://a") 0).sockets ∧
    (0, ReadyState.OPEN) ∈
      (connect (onOpen (connect initWorld "ws://a") 0) "ws://b").sockets ∧
    activeCount (connect (onOpen (connect initWorld "ws://a") 0) "ws://b") =
      activeCount (onOpen (connect initWorld "ws://a") 0) + 1 :=
  ⟨by decide,
   (c8_connect_leaks (onOpen (connect initWorld "ws://a") 0) "ws://b").2.2
     (0, ReadyState.OPEN) (by decide),
   (c8_connect_leaks (onOpen (connect initWorld "ws://a") 0) "ws://b").2.1⟩

/-- The orchestrating page's state (src/unnamed/part_000 line 22). -/
inductive AppState where
  | idle : AppState
  | scanning : AppState
  | connecting : AppState
  | connected : AppState
  | decrypting : AppState
  | viewing : AppState
deriving DecidableEq

/-- The parsed QR descriptor held by the page (part_000 line 29). -/
structure QRInfo where
  url : String
  key : Option String
deriving DecidableEq

/-- The page's `onStatusChange` handler (part_000 lines 34-51): a
`connected` report moves the page to `connected`; an `error` report (a
connection-stage fault) moves it to `idle`; other reports leave the page
state alone. -/
def onStatusChangeApp : ConnectionStatus → AppState → AppState
  | ConnectionStatus.connected, _ => AppState.connected
  | ConnectionStatus.error, _ => AppState.idle
  | _, st => st

/-- `handleEncryptedData` (part_000 lines 103-148): with no stored
descriptor or no key material the handler reports the missing key and
returns without changing the page state; otherwise it decrypts and
extracts (passing through `decrypting` meanwhile), ending at `viewing` on
success and at `connected` on any failure.  The returned flag records
whether the handler closed the channel — it never does. -/
def handleEncryptedData (C : Cipher) (loadZip : List Nat → Except String (List ZipEntry))
    (qr : Option QRInfo) (encryptedData : List Nat) (st : AppState) : AppState × Bool :=
  match qr with
  | none => (st, false)
  | some q =>
    match q.key with
    | none => (st, false)
    | some k =>
      let result := CryptoService.decryptAndExtractZip C loadZip encryptedData k none
      if result.success && result.files.isSome then (AppState.viewing, false)
      else (AppState.connected, false)

/-- C9 (confirmed): every surfaced error returns the session to a stable
re-usable state, never a terminal crash state: a connection-stage fault
(status report `error`) sends the page to `idle`; every post-connection
fault — missing key material, decryption failure, extraction failure —
leaves the page in `connected` with the channel untouched (the handler
never disconnects). -/
theorem c9_error_recovery (C : Cipher) (loadZip : List Nat → Except String (List ZipEntry))
    (q : QRInfo) (encryptedData : List Nat) (st : AppState) :
    (∀ s, onStatusChangeApp ConnectionStatus.error s = AppState.idle) ∧
    handleEncryptedData C loadZip none encryptedData AppState.connected =
      (AppState.connected, false) ∧
    (q.key = none →
      handleEncryptedData C loadZip (some q) encryptedData AppState.connected =
        (AppState.connected, false)) ∧
    (∀ k, q.key = some k →
      (CryptoService.decryptAndExtractZip C loadZip encryptedData k none).success = false →
      handleEncryptedData C loadZip (some q) encryptedData st =
        (AppState.connected, false)) ∧
    (handleEncryptedData C loadZip (some q) encryptedData st).2 = false := by
  refine ⟨fun s => rfl, rfl, fun hk => ?_, fun k hk hfail => ?_, ?_⟩
  · simp [handleEncryptedData, hk]
  · simp [handleEncryptedData, hk, hfail]
  · cases hk : q.key with
    | none => simp [handleEncryptedData, hk]
    | some k =>
      simp only [handleEncryptedData, hk]
      split <;> rfl

/-- C9 witness: the per-payload branches evaluated at a concrete session
whose archive loader rejects the decrypted bytes. -/
theorem c9_witness :
    (CryptoService.decryptAndExtractZip idCipher zipLoadCorrupt [] "k" none).success = false ∧
    handleEncryptedData idCipher zipLoadCorrupt
      (some ⟨"ws://h", some "k"⟩) [] AppState.connected = (AppState.connected, false) ∧
    onStatusChangeApp ConnectionStatus.error AppState.connected = AppState.idle :=
  ⟨by decide,
   (c9_error_recovery idCipher zipLoadCorrupt ⟨"ws://h", some "k"⟩ []
     AppState.connected).2.2.2.1 "k" rfl (by decide),
   (c9_error_recovery idCipher zipLoadCorrupt ⟨"ws://h", some "k"⟩ []
     AppState.connected).1 AppState.connected⟩
